import Mathlib

/-!
Verification of the OpenHSL mask data model and sampling utilities.

Shallow embedding of the Python sources:
  * `src/openhsl/hs_mask.py`        (class `HSMask`)
  * `src/openhsl/data/utils.py`     (`sample_gt`, `sliding_window`,
                                     `count_sliding_window`, `pad_with_zeros`)
  * `src/openhsl/data/tf_dataloader.py` (`create_patches`)

2D numpy arrays of integers are modelled as `List (List Int)` (row major),
3D arrays as `List (List (List Int))` with the numpy axis order `[H, W, K]`.
The entries are integers, matching the integer-dtype arrays all the claims
quantify over.  Machine-width casts (`astype('uint8')`) are modelled by
`% 256` on `Int`.  The real-valued ratio arithmetic of `sample_gt` is
modelled over `ℚ`.  `sklearn.model_selection.train_test_split` is an external
randomized collaborator and is modelled as an oracle parameter (`Splitter`).
-/

attribute [local semireducible] Rat.mul Rat.add Rat.sub Rat.inv

deriving instance DecidableEq for Except

/-- A 2D integer array (numpy `[H, W]`, row major). -/
abbrev Grid := List (List Int)

/-- A 3D integer array (numpy `[H, W, K]`). -/
abbrev Grid3 := List (List (List Int))

/-- Element access `g[i, j]`, defaulting to `0` out of range (the Python code
only indexes in bounds). -/
def at2 (g : Grid) (i j : Nat) : Int := (g.getD i []).getD j 0

/-- Number of rows (`g.shape[0]`). -/
def rowsG (g : Grid) : Nat := g.length

/-- Number of columns of row `i`. For rectangular arrays this is `g.shape[1]`. -/
def colsG (g : Grid) (i : Nat) : Nat := (g.getD i []).length

/-- Pointwise rebuild of a grid from an index-dependent function; this is the
functional reading of a numpy element-wise masked assignment. -/
def gmap (f : Nat → Nat → Int → Int) (g : Grid) : Grid :=
  (List.range g.length).map fun i =>
    (List.range (colsG g i)).map fun j => f i j (at2 g i j)

/-- Model of `np.zeros_like(g)`. -/
def zerosLike (g : Grid) : Grid := gmap (fun _ _ _ => 0) g

/-- Sorted insertion keeping values distinct; folding it over all entries of an
array yields the sorted list of distinct values, i.e. `np.unique`. -/
def insertSorted (v : Int) : List Int → List Int
  | [] => [v]
  | x :: xs =>
    if v < x then v :: x :: xs
    else if v = x then x :: xs
    else x :: insertSorted v xs

/-- Model of `np.unique` on a 2D array: sorted list of the distinct values. -/
def npUnique2 (d : List (List Int)) : List Int :=
  d.foldl (fun acc row => row.foldl (fun a w => insertSorted w a) acc) []

/-! ### Embedding of `hs_mask.py`: the `HSMask` store -/

/-- A numpy array argument of `HSMask.__init__`: 2- or 3-dimensional. -/
inductive NPArr where
  | a2 (d : Grid)
  | a3 (d : Grid3)
deriving DecidableEq

/-- Model of `np.any(mask)`: some entry is nonzero. -/
def npAny : NPArr → Bool
  | .a2 d => d.any fun r => r.any fun v => v != 0
  | .a3 d => d.any fun r => r.any fun vox => vox.any fun v => v != 0

/-- Model of `np.all(u != np.array(range(0, len(u))))` for the unique-value list `u`:
true iff every value differs from its own index (numpy compares the two
equal-length arrays elementwise). -/
def allNeFrom (k : Nat) : List Int → Bool
  | [] => true
  | x :: xs => (x != (k : Int)) && allNeFrom (k + 1) xs

/-- Model of `HSMask.__is_correct_2d_mask`.  The dtype test always passes in this model
(entries are integers).  Note the source rejects only when *all* unique values
differ from their index (`np.all` of elementwise `!=`), so a value set such as
`{0, 2, 5}` is accepted. -/
def is_correct_2d_mask : NPArr → Bool
  | .a2 d => !(allNeFrom 0 (npUnique2 d))
  | .a3 _ => false

/-- Model of `np.all(np.unique(layer) != np.array([0, 1]))` with numpy broadcasting:
a singleton `[a]` broadcasts against `[0, 1]`; a pair compares elementwise;
any other length is broadcast-incompatible, where legacy numpy yields the
scalar `True` for `!=` (so the layer is rejected). -/
def npAllNe01 : List Int → Bool
  | [a] => (a != 0) && (a != 1)
  | [a, b] => (a != 0) && (b != 1)
  | _ => true

/-- Layer `k` of a 3D mask: the 2D slice `mask[:, :, k]`. -/
def layerOf (d : Grid3) (k : Nat) : Grid :=
  d.map fun row => row.map fun vox => vox.getD k 0

/-- Model of `mask.shape[-1]` of a (rectangular) 3D array. -/
def lastDim3 (d : Grid3) : Nat := ((d.getD 0 []).getD 0 []).length

/-- Model of `HSMask.__is_correct_3d_mask`.  For a 2D array the guard
`len(shape) != 3 and shape[-1] < 2` returns `False` only when the column count
is below 2; otherwise `np.transpose(mask, (2, 0, 1))` raises a `ValueError`.
For a 3D array the first conjunct is false, so every layer is checked. -/
def is_correct_3d_mask : NPArr → Except String Bool
  | .a2 d =>
    if (d.getD 0 []).length < 2 then .ok false
    else .error "ValueError: axes do not match array"
  | .a3 d =>
    .ok ((List.range (lastDim3 d)).all fun k =>
      !(npAllNe01 (npUnique2 (layerOf d k))))

/-- Model of `HSMask.__is_correct_class_dict`.  The check `not d` rejects `None` and the empty
dict; the second numpy condition compares a 0-d object array against an int
range, which is elementwise unequal, so it reduces to `len(d) != class_count`. -/
def is_correct_class_dict (d : Option (List (Int × String))) (count : Nat) :
    Bool :=
  match d with
  | none => false
  | some l => !l.isEmpty && (l.length == count)

/-- Model of `shape[-1]` of the array held in `self.data`. -/
def lastDim : NPArr → Nat
  | .a2 d => (d.getD 0 []).length
  | .a3 d => lastDim3 d

/-- Model of `HSMask.convert_2d_to_3d_mask`: one binary `(mask == cl)` layer per unique
value `cl`, stacked along the last axis. -/
def convert_2d_to_3d_mask (d : Grid) : Grid3 :=
  let u := npUnique2 d
  d.map fun row => row.map fun v => u.map fun cl => if v = cl then 1 else 0

/-- The per-voxel projection of `HSMask.convert_3d_to_2d_mask`: scanning the
layers in ascending order, the last index whose entry is 1 wins (starting
from the `np.zeros` background). -/
def lastHot (i : Nat) (acc : Int) : List Int → Int
  | [] => acc
  | x :: xs => lastHot (i + 1) (if x = 1 then (i : Int) else acc) xs

/-- Model of `HSMask.convert_3d_to_2d_mask`, including the final `astype('uint8')`
cast modelled as `% 256`. -/
def convert_3d_to_2d_mask (d : Grid3) : Grid :=
  d.map fun row => row.map fun vox => (lastHot 0 0 vox) % 256

/-- The attribute state of an `HSMask` after `__init__`; `n_classes = none`
means the attribute was never assigned (void branch). -/
structure HSMaskState where
  data : Option NPArr
  label_class : Option (List (Int × String))
  n_classes : Option Nat
deriving DecidableEq

/-- Model of `HSMask.__init__`.  Mirrors the control flow of the source: a nonzero
array is classified as 2D mask, 3D mask or invalid; an invalid array leaves
`self.data = None`, after which `self.n_classes = self.data.shape[-1]`
dereferences `None` and raises `AttributeError`.  An all-zero (or `None`)
argument takes the void branch, assigning only `data` and `label_class`. -/
def maskInit (mask : NPArr) (label_class : Option (List (Int × String))) :
    Except String HSMaskState :=
  if npAny mask then
    let dataE : Except String (Option NPArr) :=
      if is_correct_2d_mask mask then
        .ok (some (.a3 (convert_2d_to_3d_mask
          (match mask with | .a2 d => d | .a3 _ => []))))
      else
        match is_correct_3d_mask mask with
        | .error e => .error e
        | .ok true => .ok (some mask)
        | .ok false => .ok none
    match dataE with
    | .error e => .error e
    | .ok none => .error "AttributeError: NoneType object has no attribute shape"
    | .ok (some dat) =>
      let lc := if npAny dat && is_correct_class_dict label_class (lastDim dat)
                then label_class else none
      .ok ⟨some dat, lc, some (lastDim dat)⟩
  else
    .ok ⟨none, none, none⟩

/-- Counterexample LabelMap for the 2D/3D round trip: the single row
`0, 1, …, 256` (257 contiguous classes, which overflows the `uint8` cast). -/
def cexMask : Grid := [(List.range 257).map fun (k : Nat) => (k : Int)]

/-! ### Embedding of `utils.py`: `sample_gt` -/

/-- A pixel position `(row, column)`. -/
abbrev Pos := Nat × Nat

/-- Oracle model of `sklearn.model_selection.train_test_split` on a list of
positions: it either raises or returns the (train, test) index lists. -/
abbrev Splitter :=
  List Pos → ℚ → Except String (List Pos × List Pos)

/-- The contract sklearn's `train_test_split` provides on a duplicate-free
index list: the two returned lists are drawn from the input, are disjoint,
and are both nonempty (sklearn raises when either side would be empty). -/
def GoodSplitter (sp : Splitter) : Prop :=
  ∀ xs q a b, xs.Nodup → sp xs q = .ok (a, b) →
    (∀ p ∈ a, p ∈ xs) ∧ (∀ p ∈ b, p ∈ xs) ∧ (∀ p ∈ a, p ∉ b) ∧
      a ≠ [] ∧ b ≠ []

/-- Row-major list of the positions satisfying a predicate (the shape shared
by `np.nonzero(gt)` and `np.nonzero(gt == c)`). -/
def gridPositions (R : Nat) (C : Nat → Nat) (Q : Nat → Nat → Bool) : List Pos :=
  (List.range R).flatMap fun i =>
    (List.range (C i)).filterMap fun j =>
      if Q i j then some (i, j) else none

/-- Model of `np.nonzero(gt)` as a row-major list of positions. -/
def nonzeroPos (g : Grid) : List Pos :=
  gridPositions (rowsG g) (colsG g) fun i j => at2 g i j != 0

/-- Model of `np.nonzero(gt == c)` as a row-major list of positions. -/
def posOf (g : Grid) (c : Int) : List Pos :=
  gridPositions (rowsG g) (colsG g) fun i j => at2 g i j == c

/-- Model of `np.count_nonzero(gt == c)` over a (sub)grid. -/
def countC (g : Grid) (c : Int) : Nat :=
  (g.map fun r => r.countP fun v => v == c).sum

/-- The row scan of disjoint mode for one class: the first row index `x` with
`first_half_count / total > 0.9 * train_size` (a zero total raises
`ZeroDivisionError`, which the source catches and skips), else the last row
index `H - 1` (final value of the loop variable when no `break` fires). -/
def stopRow (gt : Grid) (ts : ℚ) (c : Int) : Nat :=
  match (List.range (rowsG gt)).find? (fun x =>
      let fh := countC (gt.take x) c
      let sh := countC (gt.drop x) c
      decide (fh + sh ≠ 0) &&
        decide ((9 : ℚ) / 10 * ts < (fh : ℚ) / ((fh : ℚ) + (sh : ℚ)))) with
  | some x => x
  | none => rowsG gt - 1

/-- The array buffers live across the disjoint-mode class loop: the `gt`
argument's buffer and the `train_gt` buffer (`test_gt` is not written inside
the loop). -/
structure DState where
  gtBuf : Grid
  trainBuf : Grid

/-- One iteration of `for c in np.unique(gt)` in disjoint mode:
`mask = gt == c; mask[:x, :] = 0; train_gt[mask] = 0` — i.e. `train_gt` is
zeroed at the class-`c` pixels in rows `x` and below. -/
def dStep (ts : ℚ) (st : DState) (c : Int) : DState :=
  let x := stopRow st.gtBuf ts c
  { st with
    trainBuf := gmap
      (fun i j v => if x ≤ i ∧ at2 st.gtBuf i j = c then 0 else v)
      st.trainBuf }

/-- The whole disjoint-mode class loop, starting from
`train_gt = np.copy(gt)`. -/
def dRun (gt : Grid) (ts : ℚ) : DState :=
  (npUnique2 gt).foldl (dStep ts) ⟨gt, gt⟩

/-- Model of `target[tuple(indices)] = src[tuple(indices)]` for a list of positions. -/
def writeAt (base src : Grid) (ps : List Pos) : Grid :=
  gmap (fun i j v => if (i, j) ∈ ps then at2 src i j else v) base

/-- The per-class split accumulation of fixed mode (`train_indices += train`,
`test_indices += test`); a raise in any class propagates. -/
def fixedSplits (sp : Splitter) (gt : Grid) (ts : ℚ) :
    List Int → Except String (List Pos × List Pos)
  | [] => .ok ([], [])
  | c :: cs =>
    match sp (posOf gt c) ts with
    | .error e => .error e
    | .ok p =>
      match fixedSplits sp gt ts cs with
      | .error e => .error e
      | .ok q => .ok (p.1 ++ q.1, p.2 ++ q.2)

/-- Model of `sample_gt(gt, train_size, mode)`.  Returns the Python result (or the
raised error) together with the final contents of the `gt` buffer, so that
absence of in-place mutation of the argument is part of the model.  An empty
index list makes `train_gt[tuple([])]` an empty-tuple index, which assigns
the whole array (`train_gt[()] = gt[()]`). -/
def sampleGtProg (sp : Splitter) (gt : Grid) (train_size : ℚ) (mode : String) :
    Except String (Grid × Grid) × Grid :=
  let ts := if 1 < train_size then ((⌊train_size⌋ : Int) : ℚ) else train_size
  if mode = "random" then
    match sp (nonzeroPos gt) ts with
    | .error e => (.error e, gt)
    | .ok (tr, te) =>
      let train1 := if tr.isEmpty then gt else writeAt (zerosLike gt) gt tr
      let test1 := if te.isEmpty then gt else writeAt (zerosLike gt) gt te
      (.ok (train1, test1), gt)
  else if mode = "fixed" then
    match fixedSplits sp gt ts ((npUnique2 gt).filter fun c => c != 0) with
    | .error e => (.error e, gt)
    | .ok (tr, te) =>
      let train1 := if tr.isEmpty then gt else writeAt (zerosLike gt) gt tr
      let test1 := if te.isEmpty then gt else writeAt (zerosLike gt) gt te
      (.ok (train1, test1), gt)
  else if mode = "disjoint" then
    let st := dRun gt ts
    let test1 := gmap (fun i j v => if 0 < at2 st.trainBuf i j then 0 else v) gt
    (.ok (st.trainBuf, test1), st.gtBuf)
  else
    (.error (mode ++ " sampling is not implemented yet."), gt)

/-- A splitter that always raises (used where the mode under study never
consults it). -/
def spNone : Splitter := fun _ _ => .error "not used"

/-- A concrete deterministic splitter satisfying `GoodSplitter`: first
element to train, rest to test; raises when a side would be empty. -/
def spHead : Splitter := fun xs _ =>
  match xs with
  | [] => .error "empty input"
  | [_] => .error "train or test side would be empty"
  | a :: b :: r => .ok ([a], b :: r)

/-! ### Embedding of `utils.py`: sliding windows -/

/-- Length of `range(0, stop, step)` for a possibly non-positive stop. -/
def pyRangeLen (stop : Int) (step : Nat) : Nat :=
  if stop ≤ 0 ∨ step = 0 then 0 else (stop - 1).toNat / step + 1

/-- Model of `range(0, stop, step)` (Python raises on `step = 0`; all theorems assume
a positive step). -/
def pyRange (stop : Int) (step : Nat) : List Int :=
  (List.range (pyRangeLen stop step)).map fun k => ((k * step : Nat) : Int)

/-- The positions iterated on one axis of `sliding_window`:
`offset = (D - d) % step`, positions `range(0, D - d + offset + 1, step)`,
each clamped back to `D - d` when its window would overrun. -/
def axisStarts (D d step : Nat) : List Int :=
  let off := ((D : Int) - (d : Int)).emod step
  (pyRange ((D : Int) - (d : Int) + off + 1) step).map fun x =>
    if (D : Int) < x + d then (D : Int) - (d : Int) else x

/-- Model of `sliding_window(image, step, (w, h), with_data=False)`: the list of
emitted `(x, y, w, h)` tuples, for an image of spatial shape `(W, H)`. -/
def slidingWindow (W H step w h : Nat) : List (Int × Int × Nat × Nat) :=
  (axisStarts W w step).flatMap fun x =>
    (axisStarts H h step).map fun y => (x, y, w, h)

/-- Model of `count_sliding_window`: `sum(1 for _ in sliding_window(...))`. -/
def countSlidingWindow (W H step w h : Nat) : Nat :=
  (slidingWindow W H step w h).foldl (fun n _ => n + 1) 0

/-! ### Embedding of `tf_dataloader.py`: patches -/

/-- Voxel (band vector) access `X[i, j, :]`, defaulting to `[]`. -/
def at3 (X : Grid3) (i j : Nat) : List Int := (X.getD i []).getD j []

/-- Property that `X` is a rectangular `H × W × B` array. -/
def rect3 (X : Grid3) (H W B : Nat) : Bool :=
  (X.length == H) &&
    X.all fun row => (row.length == W) && row.all fun vox => vox.length == B

/-- Model of `pad_with_zeros(X, margin)`: spatial zero padding by `margin` on both
sides of both spatial axes. -/
def pad_with_zeros (X : Grid3) (m : Nat) : Grid3 :=
  let W := (X.getD 0 []).length
  let B := ((X.getD 0 []).getD 0 []).length
  let zvox : List Int := List.replicate B 0
  let zrow : List (List Int) := List.replicate (W + 2 * m) zvox
  List.replicate m zrow
    ++ X.map (fun row => List.replicate m zvox ++ row ++ List.replicate m zvox)
    ++ List.replicate m zrow

/-- Model of `zero_padded_X[r - m : r + m + 1, c - m : c + m + 1]` with `i = r - m`,
`j = c - m`: the `ps × ps` spatial window of the padded cube at `(i, j)`. -/
def extractPatch (P : Grid3) (i j ps : Nat) : Grid3 :=
  ((P.drop i).take ps).map fun row => (row.drop j).take ps

/-- Model of `create_patches(X, y, patch_size, remove_zero_labels)`: one
`patch_size × patch_size × B` patch and one label per original pixel in
row-major order; optionally drop zero labels and decrement the rest. -/
def create_patches (X : Grid3) (y : Grid) (patch_size : Nat)
    (remove_zero_labels : Bool) : List Grid3 × List Int :=
  let m := (patch_size - 1) / 2
  let P := pad_with_zeros X m
  let H := X.length
  let W := (X.getD 0 []).length
  let pairs := (List.range H).flatMap fun i =>
    (List.range W).map fun j => (extractPatch P i j patch_size, at2 y i j)
  let pairs2 := if remove_zero_labels
    then (pairs.filter fun p => decide (0 < p.2)).map fun p => (p.1, p.2 - 1)
    else pairs
  (pairs2.map Prod.fst, pairs2.map Prod.snd)

/-! ## Theorems -/

theorem at2_eq (g : Grid) (i j : Nat) :
    at2 g i j = ((g[i]?.getD [])[j]?).getD 0 := by
  simp [at2, List.getD_eq_getElem?_getD]

theorem at2_oob (g : Grid) (i j : Nat) (h : ¬ (i < rowsG g ∧ j < colsG g i)) :
    at2 g i j = 0 := by
  unfold rowsG colsG at h
  unfold at2
  rcases Nat.lt_or_ge i g.length with hi | hi
  · rcases Nat.lt_or_ge j (g.getD i []).length with hj | hj
    · exact absurd ⟨hi, hj⟩ h
    · exact List.getD_eq_default _ _ hj
  · rw [List.getD_eq_default _ _ hi]
    simp

theorem rows_gmap (f : Nat → Nat → Int → Int) (g : Grid) :
    rowsG (gmap f g) = rowsG g := by
  simp [gmap, rowsG]

theorem cols_gmap (f : Nat → Nat → Int → Int) (g : Grid) (i : Nat) :
    colsG (gmap f g) i = colsG g i := by
  unfold gmap colsG
  rcases Nat.lt_or_ge i g.length with hi | hi
  · rw [List.getD_eq_getElem?_getD, List.getElem?_map, List.getElem?_range hi]
    simp
  · rw [List.getD_eq_getElem?_getD,
        List.getElem?_eq_none (by simpa using hi),
        List.getD_eq_getElem?_getD (l := g),
        List.getElem?_eq_none hi]

theorem at2_gmap (f : Nat → Nat → Int → Int) (g : Grid) (i j : Nat) :
    at2 (gmap f g) i j =
      if i < rowsG g ∧ j < colsG g i then f i j (at2 g i j) else 0 := by
  rw [at2_eq]
  unfold gmap
  rcases Nat.lt_or_ge i g.length with hi | hi
  · rw [List.getElem?_map, List.getElem?_range hi]
    simp only [Option.map_some', Option.getD_some]
    rcases Nat.lt_or_ge j (colsG g i) with hj | hj
    · rw [List.getElem?_map, List.getElem?_range hj]
      simp [rowsG, hi, hj]
    · rw [List.getElem?_map,
          List.getElem?_eq_none (l := List.range (colsG g i)) (by simpa using hj)]
      simp [rowsG, Nat.not_lt_of_ge hj]
  · rw [List.getElem?_map,
        List.getElem?_eq_none (l := List.range g.length) (by simpa using hi)]
    simp [rowsG, Nat.not_lt_of_ge hi]

theorem at2_zerosLike (g : Grid) (i j : Nat) : at2 (zerosLike g) i j = 0 := by
  unfold zerosLike
  rw [at2_gmap]
  split <;> rfl

theorem mem_insertSorted (v x : Int) (l : List Int) :
    x ∈ insertSorted v l ↔ x = v ∨ x ∈ l := by
  induction l with
  | nil => simp [insertSorted]
  | cons y ys ih =>
    unfold insertSorted
    by_cases h1 : v < y
    · simp [h1]
    · by_cases h2 : v = y
      · subst h2
        rw [if_neg h1, if_pos rfl]
        simp only [List.mem_cons]
        tauto
      · simp only [h1, if_false, h2, if_false, List.mem_cons, ih]
        tauto

theorem sorted_insertSorted (v : Int) (l : List Int)
    (h : l.Sorted (· < ·)) : (insertSorted v l).Sorted (· < ·) := by
  induction l with
  | nil => simp [insertSorted]
  | cons y ys ih =>
    rcases List.sorted_cons.mp h with ⟨hy, hys⟩
    unfold insertSorted
    by_cases h1 : v < y
    · rw [if_pos h1]
      refine List.sorted_cons.mpr ⟨?_, h⟩
      intro b hb
      rcases List.mem_cons.mp hb with hb | hb
      · omega
      · have := hy b hb; omega
    · by_cases h2 : v = y
      · rw [if_neg h1, if_pos h2]
        exact h
      · rw [if_neg h1, if_neg h2]
        refine List.sorted_cons.mpr ⟨?_, ih hys⟩
        intro b hb
        rcases (mem_insertSorted v b ys).mp hb with hb | hb
        · omega
        · exact hy b hb

theorem sorted_foldl_insert (row : List Int) (acc : List Int)
    (h : acc.Sorted (· < ·)) :
    (row.foldl (fun a w => insertSorted w a) acc).Sorted (· < ·) := by
  induction row generalizing acc with
  | nil => exact h
  | cons w ws ih => exact ih _ (sorted_insertSorted w acc h)

theorem npUnique2_sorted (d : List (List Int)) :
    (npUnique2 d).Sorted (· < ·) := by
  unfold npUnique2
  have h : ∀ (rows : List (List Int)) (acc : List Int), acc.Sorted (· < ·) →
      (rows.foldl (fun acc row => row.foldl (fun a w => insertSorted w a) acc)
        acc).Sorted (· < ·) := by
    intro rows
    induction rows with
    | nil => intro acc h; exact h
    | cons r rs ih => intro acc h; exact ih _ (sorted_foldl_insert r acc h)
  exact h d [] (by simp)

theorem npUnique2_nodup (d : List (List Int)) : (npUnique2 d).Nodup :=
  (npUnique2_sorted d).nodup

theorem mem_foldl_insert (row : List Int) (acc : List Int) (x : Int) :
    x ∈ row.foldl (fun a w => insertSorted w a) acc ↔ x ∈ row ∨ x ∈ acc := by
  induction row generalizing acc with
  | nil => simp
  | cons w ws ih =>
    simp only [List.foldl_cons, ih, mem_insertSorted, List.mem_cons]
    tauto

theorem mem_npUnique2 (d : List (List Int)) (x : Int) :
    x ∈ npUnique2 d ↔ ∃ row ∈ d, x ∈ row := by
  unfold npUnique2
  have h : ∀ (rows : List (List Int)) (acc : List Int),
      (x ∈ rows.foldl
          (fun acc row => row.foldl (fun a w => insertSorted w a) acc) acc) ↔
        (∃ row ∈ rows, x ∈ row) ∨ x ∈ acc := by
    intro rows
    induction rows with
    | nil => simp
    | cons r rs ih =>
      intro acc
      simp only [List.foldl_cons, ih, mem_foldl_insert, List.mem_cons]
      constructor
      · rintro (⟨row, hr, hx⟩ | hx | hacc)
        · exact Or.inl ⟨row, Or.inr hr, hx⟩
        · exact Or.inl ⟨r, Or.inl rfl, hx⟩
        · exact Or.inr hacc
      · rintro (⟨row, hr | hr, hx⟩ | hacc)
        · subst hr; exact Or.inr (Or.inl hx)
        · exact Or.inl ⟨row, hr, hx⟩
        · exact Or.inr (Or.inr hacc)
  rw [h d []]
  simp

theorem entry_mem_npUnique2 (d : List (List Int)) (i j : Nat)
    (hi : i < rowsG d) (hj : j < colsG d i) : at2 d i j ∈ npUnique2 d := by
  rw [mem_npUnique2]
  unfold rowsG at hi
  unfold colsG at hj
  refine ⟨d.getD i [], ?_, ?_⟩
  · rw [List.getD_eq_getElem (l := d) _ hi]
    exact List.getElem_mem hi
  · unfold at2
    rw [List.getD_eq_getElem _ _ hj]
    exact List.getElem_mem hj

theorem list_map_self {α : Type} (l : List α) (f : α → α)
    (h : ∀ x ∈ l, f x = x) : l.map f = l := by
  induction l with
  | nil => rfl
  | cons a l ih =>
    simp only [List.map_cons, h a (List.mem_cons_self a l)]
    rw [ih fun x hx => h x (List.mem_cons_of_mem a hx)]

theorem insertSorted_append (v : Int) (l : List Int)
    (h : ∀ x ∈ l, x < v) : insertSorted v l = l ++ [v] := by
  induction l with
  | nil => rfl
  | cons y ys ih =>
    have hy : y < v := h y (List.mem_cons_self y ys)
    unfold insertSorted
    rw [if_neg (by omega), if_neg (by omega),
      ih fun x hx => h x (List.mem_cons_of_mem y hx)]
    rfl

theorem foldl_insert_of_sorted (l acc : List Int) (hl : l.Sorted (· < ·))
    (hcross : ∀ a ∈ acc, ∀ x ∈ l, a < x) :
    l.foldl (fun a w => insertSorted w a) acc = acc ++ l := by
  induction l generalizing acc with
  | nil => simp
  | cons x xs ih =>
    rcases List.sorted_cons.mp hl with ⟨hx, hxs⟩
    simp only [List.foldl_cons]
    rw [insertSorted_append x acc
      (fun a ha => hcross a ha x (List.mem_cons_self x xs))]
    rw [ih (acc ++ [x]) hxs ?_]
    · simp
    · intro a ha y hy
      rcases List.mem_append.mp ha with ha | ha
      · exact lt_trans (hcross a ha x (List.mem_cons_self x xs)) (hx y hy)
      · rcases List.mem_singleton.mp ha with rfl
        exact hx y hy

theorem npUnique2_single (l : List Int) (hl : l.Sorted (· < ·)) :
    npUnique2 [l] = l := by
  unfold npUnique2
  simp only [List.foldl_cons, List.foldl_nil]
  rw [foldl_insert_of_sorted l [] hl (by simp)]
  rfl

theorem castRange_sorted (n : Nat) :
    ((List.range n).map fun (k : Nat) => (k : Int)).Sorted (· < ·) := by
  unfold List.Sorted
  rw [List.pairwise_map]
  have := List.pairwise_lt_range n
  exact this.imp (by intro a b h; exact_mod_cast h)

theorem mem_castRange (n : Nat) (v : Int)
    (h : v ∈ (List.range n).map fun (k : Nat) => (k : Int)) :
    0 ≤ v ∧ v < (n : Int) := by
  rcases List.mem_map.mp h with ⟨k, hk, rfl⟩
  have := List.mem_range.mp hk
  constructor
  · exact Int.ofNat_nonneg k
  · exact_mod_cast this

theorem lastHot_append (l1 l2 : List Int) (i : Nat) (acc : Int) :
    lastHot i acc (l1 ++ l2) = lastHot (i + l1.length) (lastHot i acc l1) l2 := by
  induction l1 generalizing i acc with
  | nil => simp [lastHot]
  | cons x xs ih =>
    simp only [List.cons_append, lastHot, List.length_cons, List.append_eq]
    rw [ih]
    congr 1
    omega

theorem lastHot_indicator (K : Nat) (v : Int) (h0 : 0 ≤ v)
    (hK : v < (K : Int)) :
    lastHot 0 0 ((List.range K).map fun (k : Nat) =>
      if v = (k : Int) then (1 : Int) else 0) = v := by
  induction K with
  | zero => omega
  | succ K ih =>
    rw [List.range_succ, List.map_append, lastHot_append]
    simp only [List.map_cons, List.map_nil, lastHot]
    by_cases hv : v = (K : Int)
    · subst hv
      simp
    · have hK' : v < (K : Int) := by
        have h1 : v < ((K : Int) + 1) := by exact_mod_cast hK
        omega
      have he : (if v = (K : Int) then (1 : Int) else 0) = 0 := if_neg hv
      simp only [he]
      rw [if_neg (by omega : ¬ ((0 : Int) = 1))]
      exact ih hK'

theorem maskInit_void (m : NPArr) (lc : Option (List (Int × String)))
    (h : npAny m = false) : maskInit m lc = .ok ⟨none, none, none⟩ := by
  simp [maskInit, h]

/-- C1: the claim says constructing an `HSMask` from an array failing both
validations returns normally with `data = None`.  In fact the constructor
then executes `self.n_classes = self.data.shape[-1]` with `self.data = None`
and raises `AttributeError`; evaluated here on the failing input
`np.array([[5]])`. -/
theorem c1_bad_array_construction_raises :
    maskInit (NPArr.a2 [[5]]) none =
      .error "AttributeError: NoneType object has no attribute shape" := by
  rfl

/-- C9: an all-zero argument (of any shape, including an all-zero 2D array)
makes `np.any(mask)` false, so `__init__` takes the void branch: it returns
normally, sets `data = None` and `label_class = None`, and never assigns
`n_classes`. -/
theorem c9_all_zero_mask_void (m : NPArr) (lc : Option (List (Int × String)))
    (h : npAny m = false) :
    maskInit m lc = .ok ⟨none, none, none⟩ :=
  maskInit_void m lc h

theorem c9_all_zero_mask_void_witness :
    npAny (NPArr.a2 [[0, 0], [0, 0]]) = false ∧
      maskInit (NPArr.a2 [[0, 0], [0, 0]]) none = .ok ⟨none, none, none⟩ :=
  ⟨by rfl, c9_all_zero_mask_void (NPArr.a2 [[0, 0], [0, 0]]) none (by rfl)⟩

/-- C4: the claim says every 2D integer array whose values are not exactly
`{0,…,U-1}` is rejected by the 2D validation.  The source's own comment says
value sets like `0,2,5` must be rejected, but `np.all(unique != range(U))`
is false as soon as one value matches its index, so `[[0, 2, 5]]` passes the
validation and is accepted as a 2D mask (converted to a 3-layer stack). -/
theorem c4_gapped_values_accepted :
    is_correct_2d_mask (NPArr.a2 [[0, 2, 5]]) = true ∧
      maskInit (NPArr.a2 [[0, 2, 5]]) none =
        .ok ⟨some (NPArr.a3 [[[1, 0, 0], [0, 1, 0], [0, 0, 1]]]),
             none, some 3⟩ :=
  ⟨by rfl, by rfl⟩

/-- C3 (amended): for a valid LabelMap whose distinct values are exactly
`{0,…,K-1}` with `2 ≤ K` and additionally `K ≤ 256` (the values survive the
final `astype('uint8')` cast), the 2D → 3D → 2D round trip is the identity. -/
theorem c3_mask_roundtrip (m : Grid) (K : Nat) (_hK2 : 2 ≤ K) (hK : K ≤ 256)
    (hu : npUnique2 m = (List.range K).map fun (k : Nat) => (k : Int)) :
    convert_3d_to_2d_mask (convert_2d_to_3d_mask m) = m := by
  have hmem : ∀ v, v ∈ npUnique2 m → 0 ≤ v ∧ v < (K : Int) := by
    intro v hv
    rw [hu] at hv
    exact mem_castRange K v hv
  simp only [convert_2d_to_3d_mask, convert_3d_to_2d_mask, hu]
  rw [List.map_map]
  apply list_map_self
  intro row hrow
  simp only [Function.comp]
  rw [List.map_map]
  apply list_map_self
  intro v hv
  simp only [Function.comp]
  have hvm : v ∈ npUnique2 m := (mem_npUnique2 m v).mpr ⟨row, hrow, hv⟩
  obtain ⟨h0, hKv⟩ := hmem v hvm
  rw [List.map_map]
  have hfun : ((fun cl => if v = cl then (1 : Int) else 0) ∘
      fun (k : Nat) => (k : Int)) =
      fun (k : Nat) => if v = (k : Int) then (1 : Int) else 0 := rfl
  rw [hfun, lastHot_indicator K v h0 hKv]
  exact Int.emod_eq_of_lt h0 (lt_of_lt_of_le hKv (by exact_mod_cast hK))

theorem c3_mask_roundtrip_witness :
    npUnique2 [[0, 1], [1, 0]] =
        ((List.range 2).map fun (k : Nat) => (k : Int)) ∧
      convert_3d_to_2d_mask (convert_2d_to_3d_mask [[0, 1], [1, 0]]) =
        [[0, 1], [1, 0]] :=
  ⟨by rfl, c3_mask_roundtrip [[0, 1], [1, 0]] 2 (by omega) (by omega) (by rfl)⟩

/-- C3 counterexample: the single-row LabelMap with values `0,…,256`
(257 contiguous classes, a valid 2D mask) does not survive the round trip:
the `astype('uint8')` cast wraps the value 256 to 0. -/
theorem c3_overflow_cex :
    npUnique2 cexMask = ((List.range 257).map fun (k : Nat) => (k : Int)) ∧
      convert_3d_to_2d_mask (convert_2d_to_3d_mask cexMask) ≠ cexMask := by
  have hu : npUnique2 cexMask =
      (List.range 257).map fun (k : Nat) => (k : Int) :=
    npUnique2_single _ (castRange_sorted 257)
  refine ⟨hu, ?_⟩
  intro heq
  simp only [convert_2d_to_3d_mask, convert_3d_to_2d_mask, hu, cexMask,
    List.map_cons, List.map_nil, List.map_map, List.cons.injEq, and_true] at heq
  have hu2 : npUnique2 [(List.range 257).map fun (k : Nat) => (k : Int)] =
      (List.range 257).map fun (k : Nat) => (k : Int) :=
    npUnique2_single _ (castRange_sorted 257)
  have h2 := congrArg (fun l => l[256]?) heq
  simp only [hu2, List.getElem?_map, List.getElem?_range (by omega : 256 < 257),
    Option.map_some', Option.map_map, Function.comp] at h2
  rw [List.map_map] at h2
  have hfun : ((fun cl => if ((256 : Nat) : Int) = cl then (1 : Int) else 0) ∘
      fun (k : Nat) => (k : Int)) =
      fun (k : Nat) => if ((256 : Nat) : Int) = (k : Int) then (1 : Int) else 0 :=
    rfl
  rw [hfun] at h2
  rw [lastHot_indicator 257 ((256 : Nat) : Int)
    (by exact_mod_cast Nat.zero_le 256)
    (by exact_mod_cast (by omega : (256 : Nat) < 257))] at h2
  norm_num at h2

theorem mem_gridPositions (R : Nat) (C : Nat → Nat) (Q : Nat → Nat → Bool)
    (p : Pos) :
    p ∈ gridPositions R C Q ↔ p.1 < R ∧ p.2 < C p.1 ∧ Q p.1 p.2 = true := by
  unfold gridPositions
  rw [List.mem_flatMap]
  constructor
  · rintro ⟨i, hi, hp⟩
    rcases List.mem_filterMap.mp hp with ⟨j, hj, hsome⟩
    by_cases hq : Q i j = true
    · rw [if_pos hq] at hsome
      cases hsome
      exact ⟨List.mem_range.mp hi, List.mem_range.mp hj, hq⟩
    · rw [if_neg hq] at hsome
      cases hsome
  · rintro ⟨hR, hC, hQ⟩
    refine ⟨p.1, List.mem_range.mpr hR, List.mem_filterMap.mpr
      ⟨p.2, List.mem_range.mpr hC, ?_⟩⟩
    rw [if_pos hQ]

theorem nodup_gridPositions (R : Nat) (C : Nat → Nat) (Q : Nat → Nat → Bool) :
    (gridPositions R C Q).Nodup := by
  unfold gridPositions
  rw [List.nodup_flatMap]
  constructor
  · intro i _
    apply List.Nodup.filterMap ?_ (List.nodup_range _)
    intro a b p hpa hpb
    by_cases hqa : Q i a = true
    · rw [if_pos hqa] at hpa
      by_cases hqb : Q i b = true
      · rw [if_pos hqb] at hpb
        cases hpa; cases hpb; rfl
      · rw [if_neg hqb] at hpb; cases hpb
    · rw [if_neg hqa] at hpa; cases hpa
  · have hr : (List.range R).Pairwise (· ≠ ·) :=
      (List.pairwise_lt_range R).imp fun h => Nat.ne_of_lt h
    refine hr.imp ?_
    intro i i' hne p hpi hpi'
    rcases List.mem_filterMap.mp hpi with ⟨j, _, hsome⟩
    rcases List.mem_filterMap.mp hpi' with ⟨j', _, hsome'⟩
    by_cases hq : Q i j = true
    · rw [if_pos hq] at hsome
      by_cases hq' : Q i' j' = true
      · rw [if_pos hq'] at hsome'
        cases hsome; cases hsome'
        exact hne rfl
      · rw [if_neg hq'] at hsome'; cases hsome'
    · rw [if_neg hq] at hsome; cases hsome

theorem mem_nonzeroPos (g : Grid) (p : Pos) :
    p ∈ nonzeroPos g ↔
      p.1 < rowsG g ∧ p.2 < colsG g p.1 ∧ at2 g p.1 p.2 ≠ 0 := by
  unfold nonzeroPos
  rw [mem_gridPositions]
  simp

theorem nonzeroPos_nodup (g : Grid) : (nonzeroPos g).Nodup :=
  nodup_gridPositions _ _ _

theorem mem_posOf (g : Grid) (c : Int) (p : Pos) :
    p ∈ posOf g c ↔
      p.1 < rowsG g ∧ p.2 < colsG g p.1 ∧ at2 g p.1 p.2 = c := by
  unfold posOf
  rw [mem_gridPositions]
  simp

theorem posOf_nodup (g : Grid) (c : Int) : (posOf g c).Nodup :=
  nodup_gridPositions _ _ _

theorem dStep_gtBuf (ts : ℚ) (st : DState) (c : Int) :
    (dStep ts st c).gtBuf = st.gtBuf := rfl

theorem foldl_dStep_gtBuf (ts : ℚ) (cs : List Int) (st : DState) :
    (cs.foldl (dStep ts) st).gtBuf = st.gtBuf := by
  induction cs generalizing st with
  | nil => rfl
  | cons c cs ih => rw [List.foldl_cons, ih, dStep_gtBuf]

/-- C10: `sample_gt` never mutates its `gt` argument: for every mode
(including an unsupported one, which raises), the final contents of the
`gt` buffer equal the input. -/
theorem c10_sample_gt_input_unchanged (sp : Splitter) (gt : Grid) (ts : ℚ)
    (mode : String) : (sampleGtProg sp gt ts mode).2 = gt := by
  unfold sampleGtProg
  by_cases h1 : mode = "random"
  · rw [if_pos h1]
    rcases sp (nonzeroPos gt) (if 1 < ts then ((⌊ts⌋ : Int) : ℚ) else ts) with e | p
    · rfl
    · rcases p with ⟨tr, te⟩
      rfl
  · rw [if_neg h1]
    by_cases h2 : mode = "fixed"
    · rw [if_pos h2]
      rcases fixedSplits sp gt (if 1 < ts then ((⌊ts⌋ : Int) : ℚ) else ts)
          ((npUnique2 gt).filter fun c => c != 0) with e | p
      · rfl
      · rcases p with ⟨tr, te⟩
        rfl
    · rw [if_neg h2]
      by_cases h3 : mode = "disjoint"
      · rw [if_pos h3]
        show (dRun gt _).gtBuf = gt
        unfold dRun
        rw [foldl_dStep_gtBuf]
      · rw [if_neg h3]

theorem foldl_dStep_trainBuf (gt : Grid) (ts : ℚ) (cs : List Int) :
    ∀ (tr : Grid), rowsG tr = rowsG gt → (∀ k, colsG tr k = colsG gt k) →
    ∀ i j, at2 ((cs.foldl (dStep ts) ⟨gt, tr⟩).trainBuf) i j =
      if at2 gt i j ∈ cs ∧ stopRow gt ts (at2 gt i j) ≤ i then 0
      else at2 tr i j := by
  induction cs with
  | nil =>
    intro tr _ _ i j
    simp
  | cons c cs ih =>
    intro tr hr hc i j
    rw [List.foldl_cons]
    have hstep : dStep ts ⟨gt, tr⟩ c =
        ⟨gt, gmap (fun i j v =>
          if stopRow gt ts c ≤ i ∧ at2 gt i j = c then 0 else v) tr⟩ := rfl
    rw [hstep]
    rw [ih _ (by rw [rows_gmap]; exact hr) (fun k => by rw [cols_gmap]; exact hc k) i j]
    rw [at2_gmap]
    by_cases hin : i < rowsG tr ∧ j < colsG tr i
    · rw [if_pos hin]
      by_cases hm : at2 gt i j ∈ cs ∧ stopRow gt ts (at2 gt i j) ≤ i
      · rw [if_pos hm, if_pos ⟨List.mem_cons_of_mem c hm.1, hm.2⟩]
      · rw [if_neg hm]
        by_cases hc2 : stopRow gt ts c ≤ i ∧ at2 gt i j = c
        · rw [if_pos hc2, if_pos ⟨by rw [hc2.2]; exact List.mem_cons_self c cs,
            by rw [hc2.2]; exact hc2.1⟩]
        · rw [if_neg hc2, if_neg ?_]
          rintro ⟨hmem, hstop⟩
          rcases List.mem_cons.mp hmem with h | h
          · exact hc2 ⟨h ▸ hstop, h⟩
          · exact hm ⟨h, hstop⟩
    · rw [if_neg hin]
      rw [at2_oob tr i j hin]
      rw [ite_self, ite_self]

theorem disjoint_train_char (gt : Grid) (ts : ℚ) (i j : Nat) :
    at2 (dRun gt ts).trainBuf i j =
      if stopRow gt ts (at2 gt i j) ≤ i then 0 else at2 gt i j := by
  unfold dRun
  rw [foldl_dStep_trainBuf gt ts _ gt rfl (fun _ => rfl) i j]
  by_cases hin : i < rowsG gt ∧ j < colsG gt i
  · have hmem := entry_mem_npUnique2 gt i j hin.1 hin.2
    by_cases hs : stopRow gt ts (at2 gt i j) ≤ i
    · rw [if_pos ⟨hmem, hs⟩, if_pos hs]
    · rw [if_neg (fun h => hs h.2), if_neg hs]
  · rw [at2_oob gt i j hin, ite_self, ite_self]

theorem sampleGt_disjoint_eq (sp : Splitter) (gt : Grid) (ts : ℚ) :
    (sampleGtProg sp gt ts "disjoint").1 =
      .ok ((dRun gt (if 1 < ts then ((⌊ts⌋ : Int) : ℚ) else ts)).trainBuf,
        gmap (fun i j v =>
          if 0 < at2 (dRun gt
              (if 1 < ts then ((⌊ts⌋ : Int) : ℚ) else ts)).trainBuf i j
          then 0 else v) gt) := by
  simp only [sampleGtProg]
  simp

/-- C2 (amended): in `"disjoint"` mode (with a fractional `train_size ≤ 1`),
for each class the row scan stops at the first row index `x` where
`first_half_count / total_count` exceeds `0.9 × train_size` (`stopRow`), and
the train mask then has that class's pixels zeroed in the rows AT OR AFTER
the stop index — so `train_gt` keeps the TOP spatial region of each class
(not the bottom, as claimed) — and `test_gt` is the complement of `train_gt`
among the originally labeled pixels. -/
theorem c2_disjoint_region (sp : Splitter) (gt : Grid) (ts : ℚ) (hts : ts ≤ 1)
    (tr te : Grid)
    (h : (sampleGtProg sp gt ts "disjoint").1 = .ok (tr, te)) (i j : Nat) :
    at2 tr i j =
      (if stopRow gt ts (at2 gt i j) ≤ i then 0 else at2 gt i j) ∧
    at2 te i j =
      (if i < rowsG gt ∧ j < colsG gt i ∧ ¬ 0 < at2 tr i j
       then at2 gt i j else 0) := by
  rw [sampleGt_disjoint_eq sp gt ts, if_neg (not_lt.mpr hts)] at h
  injection h with h
  injection h with h1 h2
  subst h1
  subst h2
  refine ⟨disjoint_train_char gt ts i j, ?_⟩
  rw [at2_gmap]
  by_cases hin : i < rowsG gt ∧ j < colsG gt i
  · rw [if_pos hin]
    by_cases hz : 0 < at2 (dRun gt ts).trainBuf i j
    · rw [if_pos hz, if_neg ?_]
      rintro ⟨_, _, hne⟩
      exact hne hz
    · rw [if_neg hz, if_pos ⟨hin.1, hin.2, hz⟩]
  · rw [if_neg hin, if_neg ?_]
    rintro ⟨h1, h2, _⟩
    exact hin ⟨h1, h2⟩

/-- C2 counterexample: on the one-column map with four labeled rows and
`train_size = 1/2`, the stop row for class 1 is 2, and the returned
`train_gt` keeps rows 0 and 1 — the rows BEFORE the stop index — zeroing
the rows at and after it, which is the opposite of the claimed behavior
(the claim requires `train_gt[0][0] = 0`, but it is 1). -/
theorem c2_disjoint_keeps_top_cex :
    (sampleGtProg spNone [[1], [1], [1], [1]] (1/2) "disjoint").1 =
      .ok ([[1], [1], [0], [0]], [[0], [0], [1], [1]]) ∧
    stopRow [[1], [1], [1], [1]] (1/2) 1 = 2 ∧
    at2 [[1], [1], [0], [0]] 0 0 = 1 := by
  refine ⟨by decide, by decide, by decide⟩

theorem c2_disjoint_region_witness :
    ((1 : ℚ)/2 ≤ 1) ∧
    (sampleGtProg spNone [[1], [1], [1], [1]] (1/2) "disjoint").1 =
      .ok ([[1], [1], [0], [0]], [[0], [0], [1], [1]]) ∧
    (at2 [[1], [1], [0], [0]] 3 0 =
      (if stopRow [[1], [1], [1], [1]] (1/2)
          (at2 [[1], [1], [1], [1]] 3 0) ≤ 3 then 0
       else at2 [[1], [1], [1], [1]] 3 0) ∧
     at2 [[0], [0], [1], [1]] 3 0 =
      (if 3 < rowsG [[1], [1], [1], [1]] ∧ 0 < colsG [[1], [1], [1], [1]] 3 ∧
          ¬ 0 < at2 [[1], [1], [0], [0]] 3 0
       then at2 [[1], [1], [1], [1]] 3 0 else 0)) :=
  ⟨by norm_num, by decide,
    c2_disjoint_region spNone [[1], [1], [1], [1]] (1/2) (by norm_num)
      [[1], [1], [0], [0]] [[0], [0], [1], [1]] (by decide) 3 0⟩

theorem at2_ifWrite (gt : Grid) (ps : List Pos) (hne : ps ≠ []) (i j : Nat) :
    at2 (if ps.isEmpty then gt else writeAt (zerosLike gt) gt ps) i j =
      if (i < rowsG gt ∧ j < colsG gt i) ∧ (i, j) ∈ ps then at2 gt i j
      else 0 := by
  rw [if_neg (by simpa [List.isEmpty_iff] using hne)]
  unfold writeAt zerosLike
  rw [at2_gmap, rows_gmap, cols_gmap]
  by_cases hin : i < rowsG gt ∧ j < colsG gt i
  · rw [if_pos hin]
    by_cases hm : (i, j) ∈ ps
    · rw [if_pos hm, if_pos ⟨hin, hm⟩]
    · rw [if_neg hm, if_neg (fun hc => hm hc.2), at2_gmap]
      split <;> rfl
  · rw [if_neg hin, if_neg (fun hc => hin hc.1)]

theorem split_out_props (gt : Grid) (a b : List Pos) (hd : ∀ p ∈ a, p ∉ b)
    (ha : a ≠ []) (hb : b ≠ []) (i j : Nat) :
    at2 (if a.isEmpty then gt else writeAt (zerosLike gt) gt a) i j *
      at2 (if b.isEmpty then gt else writeAt (zerosLike gt) gt b) i j = 0 ∧
    (at2 (if a.isEmpty then gt else writeAt (zerosLike gt) gt a) i j ≠ 0 →
      at2 (if a.isEmpty then gt else writeAt (zerosLike gt) gt a) i j =
        at2 gt i j) ∧
    (at2 (if b.isEmpty then gt else writeAt (zerosLike gt) gt b) i j ≠ 0 →
      at2 (if b.isEmpty then gt else writeAt (zerosLike gt) gt b) i j =
        at2 gt i j) := by
  rw [at2_ifWrite gt a ha, at2_ifWrite gt b hb]
  refine ⟨?_, ?_, ?_⟩
  · by_cases hm : (i, j) ∈ a
    · rw [if_neg (show ¬ ((i < rowsG gt ∧ j < colsG gt i) ∧ (i, j) ∈ b) from
        fun hc => hd _ hm hc.2)]
      exact mul_zero _
    · rw [if_neg (show ¬ ((i < rowsG gt ∧ j < colsG gt i) ∧ (i, j) ∈ a) from
        fun hc => hm hc.2)]
      exact zero_mul _
  · by_cases hc : (i < rowsG gt ∧ j < colsG gt i) ∧ (i, j) ∈ a
    · rw [if_pos hc]
      intro _
      rfl
    · rw [if_neg hc]
      intro hne
      exact absurd rfl hne
  · by_cases hc : (i < rowsG gt ∧ j < colsG gt i) ∧ (i, j) ∈ b
    · rw [if_pos hc]
      intro _
      rfl
    · rw [if_neg hc]
      intro hne
      exact absurd rfl hne

theorem fixedSplits_spec (sp : Splitter) (hsp : GoodSplitter sp) (gt : Grid)
    (ts : ℚ) (cs : List Int) (hnd : cs.Nodup) :
    ∀ A B, fixedSplits sp gt ts cs = .ok (A, B) →
      (∀ p ∈ A, ∃ c ∈ cs, p ∈ posOf gt c) ∧
      (∀ p ∈ B, ∃ c ∈ cs, p ∈ posOf gt c) ∧
      (∀ p ∈ A, p ∉ B) ∧ (A = [] ↔ cs = []) ∧ (B = [] ↔ cs = []) := by
  induction cs with
  | nil =>
    intro A B h
    unfold fixedSplits at h
    injection h with h
    injection h with h1 h2
    subst h1
    subst h2
    simp
  | cons c cs ih =>
    intro A B h
    unfold fixedSplits at h
    rcases hp : sp (posOf gt c) ts with e | p
    · rw [hp] at h
      exact Except.noConfusion h
    · rw [hp] at h
      rcases hq : fixedSplits sp gt ts cs with e | q
      · rw [hq] at h
        exact Except.noConfusion h
      · rw [hq] at h
        injection h with h
        injection h with h1 h2
        subst h1
        subst h2
        obtain ⟨hpa, hpb, hpd, hpane, hpbne⟩ :=
          hsp _ _ _ _ (posOf_nodup gt c) hp
        obtain ⟨hqa, hqb, hqd, hqaiff, hqbiff⟩ :=
          ih (List.Nodup.of_cons hnd) _ _ hq
        have hcnot : c ∉ cs := (List.nodup_cons.mp hnd).1
        have hcross : ∀ x, x ∈ posOf gt c → ∀ c', c' ∈ cs →
            x ∉ posOf gt c' := by
          intro x hx c' hc' hx'
          have h1 := ((mem_posOf gt c x).mp hx).2.2
          have h2 := ((mem_posOf gt c' x).mp hx').2.2
          exact hcnot (by rw [h1] at h2; rw [h2]; exact hc')
        refine ⟨?_, ?_, ?_, ?_, ?_⟩
        · intro x hx
          rcases List.mem_append.mp hx with hx | hx
          · exact ⟨c, List.mem_cons_self c cs, hpa x hx⟩
          · rcases hqa x hx with ⟨c', hc', hx'⟩
            exact ⟨c', List.mem_cons_of_mem c hc', hx'⟩
        · intro x hx
          rcases List.mem_append.mp hx with hx | hx
          · exact ⟨c, List.mem_cons_self c cs, hpb x hx⟩
          · rcases hqb x hx with ⟨c', hc', hx'⟩
            exact ⟨c', List.mem_cons_of_mem c hc', hx'⟩
        · intro x hx hxB
          rcases List.mem_append.mp hx with hx | hx
          · rcases List.mem_append.mp hxB with hxB | hxB
            · exact hpd x hx hxB
            · rcases hqb x hxB with ⟨c', hc', hx'⟩
              exact hcross x (hpa x hx) c' hc' hx'
          · rcases List.mem_append.mp hxB with hxB | hxB
            · rcases hqa x hx with ⟨c', hc', hx'⟩
              exact hcross x (hpb x hxB) c' hc' hx'
            · exact hqd x hx hxB
        · constructor
          · intro hAB
            rcases List.append_eq_nil.mp hAB with ⟨h1, _⟩
            exact absurd h1 hpane
          · intro hcs
            exact absurd hcs (List.cons_ne_nil c cs)
        · constructor
          · intro hAB
            rcases List.append_eq_nil.mp hAB with ⟨h1, _⟩
            exact absurd h1 hpbne
          · intro hcs
            exact absurd hcs (List.cons_ne_nil c cs)

theorem all_zero_of_no_classes (gt : Grid)
    (h : (npUnique2 gt).filter (fun c => c != 0) = []) (i j : Nat) :
    at2 gt i j = 0 := by
  by_cases hin : i < rowsG gt ∧ j < colsG gt i
  · have hmem := entry_mem_npUnique2 gt i j hin.1 hin.2
    by_contra hne
    have hf : at2 gt i j ∈ (npUnique2 gt).filter (fun c => c != 0) :=
      List.mem_filter.mpr ⟨hmem, by simpa using hne⟩
    rw [h] at hf
    exact absurd hf (List.not_mem_nil _)
  · exact at2_oob _ _ _ hin

/-- C5 (amended): for every 2D integer label array `gt` with nonnegative
entries, every `train_size`, and every supported mode, a normal return of
`sample_gt` (with `train_test_split` satisfying its contract) yields
pixel-disjoint `train_gt`/`test_gt`, and every nonzero position of either
holds the value copied from `gt` (hence was nonzero in `gt`). -/
theorem c5_sample_gt_outputs (sp : Splitter) (gt : Grid) (ts : ℚ)
    (mode : String) (tr te : Grid) (hsp : GoodSplitter sp)
    (hpos : ∀ i, i < rowsG gt → ∀ j, j < colsG gt i → 0 ≤ at2 gt i j)
    (h : (sampleGtProg sp gt ts mode).1 = .ok (tr, te)) (i j : Nat) :
    at2 tr i j * at2 te i j = 0 ∧
      (at2 tr i j ≠ 0 → at2 tr i j = at2 gt i j) ∧
      (at2 te i j ≠ 0 → at2 te i j = at2 gt i j) := by
  have hpos2 : ∀ a b, 0 ≤ at2 gt a b := by
    intro a b
    by_cases hin : a < rowsG gt ∧ b < colsG gt a
    · exact hpos a hin.1 b hin.2
    · rw [at2_oob gt a b hin]
  by_cases h1 : mode = "random"
  · subst h1
    simp only [sampleGtProg] at h
    rw [if_pos trivial] at h
    rcases hq : sp (nonzeroPos gt) (if 1 < ts then ((⌊ts⌋ : Int) : ℚ) else ts)
      with e | ⟨a, b⟩
    · rw [hq] at h
      exact Except.noConfusion h
    · rw [hq] at h
      obtain ⟨_, _, hd, hane, hbne⟩ := hsp _ _ _ _ (nonzeroPos_nodup gt) hq
      injection h with h
      injection h with ht1 ht2
      subst ht1
      subst ht2
      exact split_out_props gt a b hd hane hbne i j
  by_cases h2 : mode = "fixed"
  · subst h2
    simp only [sampleGtProg] at h
    rw [if_pos trivial] at h
    rcases hq : fixedSplits sp gt (if 1 < ts then ((⌊ts⌋ : Int) : ℚ) else ts)
        ((npUnique2 gt).filter fun c => c != 0) with e | ⟨A, B⟩
    · rw [hq] at h
      exact Except.noConfusion h
    · rw [hq] at h
      obtain ⟨hA, hB, hd, hAiff, hBiff⟩ :=
        fixedSplits_spec sp hsp gt _ _
          ((npUnique2_nodup gt).filter _) A B hq
      injection h with h
      injection h with ht1 ht2
      subst ht1
      subst ht2
      by_cases hcs : (npUnique2 gt).filter (fun c => c != 0) = []
      · have hA0 : A = [] := hAiff.mpr hcs
        have hB0 : B = [] := hBiff.mpr hcs
        subst hA0
        subst hB0
        have hz := all_zero_of_no_classes gt hcs i j
        simp only [List.isEmpty_nil, if_true]
        rw [hz]
        simp
      · have hAne : A ≠ [] := fun hh => hcs (hAiff.mp hh)
        have hBne : B ≠ [] := fun hh => hcs (hBiff.mp hh)
        exact split_out_props gt A B hd hAne hBne i j
  by_cases h3 : mode = "disjoint"
  · subst h3
    rw [sampleGt_disjoint_eq sp gt ts] at h
    injection h with h
    injection h with ht1 ht2
    subst ht1
    subst ht2
    have hchar := disjoint_train_char gt
      (if 1 < ts then ((⌊ts⌋ : Int) : ℚ) else ts) i j
    refine ⟨?_, ?_, ?_⟩
    · rw [at2_gmap]
      by_cases hin : i < rowsG gt ∧ j < colsG gt i
      · rw [if_pos hin]
        by_cases hz : 0 < at2 (dRun gt
            (if 1 < ts then ((⌊ts⌋ : Int) : ℚ) else ts)).trainBuf i j
        · rw [if_pos hz, mul_zero]
        · rw [if_neg hz]
          have htr0 : at2 (dRun gt
              (if 1 < ts then ((⌊ts⌋ : Int) : ℚ) else ts)).trainBuf i j = 0 := by
            rw [hchar]
            by_cases hs : stopRow gt
                (if 1 < ts then ((⌊ts⌋ : Int) : ℚ) else ts) (at2 gt i j) ≤ i
            · rw [if_pos hs]
            · rw [if_neg hs]
              have hge := hpos2 i j
              rw [hchar, if_neg hs] at hz
              omega
          rw [htr0, zero_mul]
      · rw [if_neg hin, mul_zero]
    · intro hne
      rw [hchar] at hne ⊢
      by_cases hs : stopRow gt
          (if 1 < ts then ((⌊ts⌋ : Int) : ℚ) else ts) (at2 gt i j) ≤ i
      · rw [if_pos hs] at hne
        exact absurd rfl hne
      · rw [if_neg hs]
    · intro hne
      rw [at2_gmap] at hne ⊢
      by_cases hin : i < rowsG gt ∧ j < colsG gt i
      · rw [if_pos hin] at hne ⊢
        by_cases hz : 0 < at2 (dRun gt
            (if 1 < ts then ((⌊ts⌋ : Int) : ℚ) else ts)).trainBuf i j
        · rw [if_pos hz] at hne
          exact absurd rfl hne
        · rw [if_neg hz]
      · rw [if_neg hin] at hne
        exact absurd rfl hne
  · simp only [sampleGtProg] at h
    rw [if_neg h1, if_neg h2, if_neg h3] at h
    exact Except.noConfusion h

/-- C5 counterexample: on the integer label array `[[-1], [-1]]` (labels may
be any integers per the claim) in `"disjoint"` mode, the guard
`test_gt[train_gt > 0] = 0` misses the negative train labels, so the outputs
overlap at pixel `(0, 0)`: both keep the value `-1` and their product is 1. -/
theorem c5_negative_label_cex :
    (sampleGtProg spNone [[-1], [-1]] (1/2) "disjoint").1 =
      .ok ([[-1], [0]], [[-1], [-1]]) ∧
    at2 [[-1], [0]] 0 0 * at2 [[-1], [-1]] 0 0 ≠ 0 := by
  refine ⟨by decide, by decide⟩

theorem spHead_good : GoodSplitter spHead := by
  intro xs q a b hnd h
  match xs, h with
  | x :: y :: r, h =>
    injection h with h
    injection h with h1 h2
    subst h1
    subst h2
    refine ⟨?_, ?_, ?_, ?_, ?_⟩
    · intro p hp
      rcases List.mem_singleton.mp hp with rfl
      exact List.mem_cons_self _ _
    · intro p hp
      exact List.mem_cons_of_mem _ hp
    · intro p hp
      rcases List.mem_singleton.mp hp with rfl
      exact (List.nodup_cons.mp hnd).1
    · exact List.cons_ne_nil _ _
    · exact List.cons_ne_nil _ _

theorem c5_sample_gt_outputs_witness :
    (∀ i, i < rowsG [[1, 2], [2, 1]] → ∀ j, j < colsG [[1, 2], [2, 1]] i →
      0 ≤ at2 [[1, 2], [2, 1]] i j) ∧
    (sampleGtProg spHead [[1, 2], [2, 1]] (1/2) "random").1 =
      .ok ([[1, 0], [0, 0]], [[0, 2], [2, 1]]) ∧
    (at2 [[1, 0], [0, 0]] 0 0 * at2 [[0, 2], [2, 1]] 0 0 = 0 ∧
      (at2 [[1, 0], [0, 0]] 0 0 ≠ 0 →
        at2 [[1, 0], [0, 0]] 0 0 = at2 [[1, 2], [2, 1]] 0 0) ∧
      (at2 [[0, 2], [2, 1]] 0 0 ≠ 0 →
        at2 [[0, 2], [2, 1]] 0 0 = at2 [[1, 2], [2, 1]] 0 0)) :=
  ⟨by decide, by decide,
    c5_sample_gt_outputs spHead [[1, 2], [2, 1]] (1/2) "random"
      [[1, 0], [0, 0]] [[0, 2], [2, 1]] spHead_good (by decide) (by decide) 0 0⟩

theorem foldl_succ_eq_length {α : Type} (l : List α) (n : Nat) :
    l.foldl (fun n _ => n + 1) n = n + l.length := by
  induction l generalizing n with
  | nil => simp
  | cons x xs ih =>
    rw [List.foldl_cons, ih, List.length_cons]
    omega

/-- C7: `count_sliding_window` iterates the very generator it counts
(`sum(1 for _ in sliding_window(..., with_data=False))`), so it equals the
number of emitted tuples exactly, for every image shape, step and window
size — including steps that do not divide `W - w`. -/
theorem c7_count_eq_length (W H s w h : Nat) :
    countSlidingWindow W H s w h = (slidingWindow W H s w h).length := by
  unfold countSlidingWindow
  rw [foldl_succ_eq_length]
  omega

theorem axisStarts_eq (W w s : Nat) (hw : w ≤ W) (hs : 0 < s) :
    axisStarts W w s = (List.range ((W - w + (W - w) % s) / s + 1)).map
      fun k => ((if W < k * s + w then W - w else k * s : Nat) : Int) := by
  simp only [axisStarts, pyRange, pyRangeLen]
  have hcast : (W : Int) - (w : Int) = ((W - w : Nat) : Int) := by
    omega
  have hoff : (((W - w : Nat)) : Int).emod (s : Int) =
      (((W - w) % s : Nat) : Int) := by
    rw [Int.natCast_mod]
    rfl
  rw [hcast, hoff]
  have hstop : ((W - w : Nat) : Int) + (((W - w) % s : Nat) : Int) + 1 =
      (((W - w) + (W - w) % s + 1 : Nat) : Int) := by
    push_cast
    ring
  rw [hstop]
  rw [if_neg (by omega : ¬ ((((W - w) + (W - w) % s + 1 : Nat) : Int) ≤ 0 ∨ s = 0))]
  have htonat : ((((W - w) + (W - w) % s + 1 : Nat) : Int) - 1).toNat =
      (W - w) + (W - w) % s := by
    omega
  rw [htonat, List.map_map]
  apply List.map_congr_left
  intro k _
  simp only [Function.comp]
  by_cases hc : W < k * s + w
  · rw [if_pos (by exact_mod_cast (by omega : ((W : Int) < ((k * s : Nat) : Int) + w))),
      if_pos hc]
  · rw [if_neg (by
      intro hcon
      apply hc
      exact_mod_cast (by omega : ((k * s : Nat) : Int) + w > (W : Int))), if_neg hc]

theorem axis_cover (W w s p : Nat) (hw : w ≤ W) (hs : 0 < s) (hsw : s ≤ w)
    (hr : (W - w) % s = 0 ∨ s ≤ 2 * ((W - w) % s)) (hp : p < W) :
    ∃ xv : Nat, ((xv : Int) ∈ axisStarts W w s) ∧ xv ≤ p ∧ p < xv + w := by
  rw [axisStarts_eq W w s hw hs]
  have hdm := Nat.div_add_mod (W - w) s
  have hdm2 := Nat.div_add_mod (W - w + (W - w) % s) s
  have hpdm := Nat.div_add_mod p s
  have hpm : p % s < s := Nat.mod_lt _ hs
  have hrm : (W - w) % s < s := Nat.mod_lt _ hs
  have hL : (W - w) / s ≤ (W - w + (W - w) % s) / s :=
    Nat.div_le_div_right (by omega)
  have e1 : (p / s) * s = s * (p / s) := Nat.mul_comm _ _
  have e2 : ((W - w + (W - w) % s) / s) * s =
      s * ((W - w + (W - w) % s) / s) := Nat.mul_comm _ _
  have e3 : ((W - w) / s) * s = s * ((W - w) / s) := Nat.mul_comm _ _
  by_cases hkL : p / s ≤ (W - w + (W - w) % s) / s
  · refine ⟨if W < (p / s) * s + w then W - w else (p / s) * s,
      List.mem_map.mpr ⟨p / s, List.mem_range.mpr (by omega), rfl⟩, ?_, ?_⟩
    · by_cases hc : W < (p / s) * s + w
      · rw [if_pos hc]
        omega
      · rw [if_neg hc]
        omega
    · by_cases hc : W < (p / s) * s + w
      · rw [if_pos hc]
        omega
      · rw [if_neg hc]
        omega
  · have hLlt : (W - w + (W - w) % s) / s < p / s := by omega
    have hLs : ((W - w + (W - w) % s) / s) * s ≤ p := by
      have := Nat.div_mul_le_self p s
      calc ((W - w + (W - w) % s) / s) * s
          ≤ (p / s) * s := Nat.mul_le_mul_right s (by omega)
        _ ≤ p := Nat.div_mul_le_self p s
    have hLbig : W - w ≤ ((W - w + (W - w) % s) / s) * s := by
      rcases hr with hr | hr
      · have h1 : (W - w + (W - w) % s) / s = (W - w) / s := by
          rw [hr, Nat.add_zero]
        rw [h1]
        omega
      · have h2 : (W - w) / s + 1 ≤ (W - w + (W - w) % s) / s := by
          rw [Nat.le_div_iff_mul_le hs]
          have h4 : ((W - w) / s + 1) * s = s * ((W - w) / s) + s := by ring
          omega
        have h3 : ((W - w) / s + 1) * s ≤ ((W - w + (W - w) % s) / s) * s :=
          Nat.mul_le_mul_right s h2
        have h4 : ((W - w) / s + 1) * s = s * ((W - w) / s) + s := by ring
        omega
    refine ⟨if W < ((W - w + (W - w) % s) / s) * s + w then W - w
        else ((W - w + (W - w) % s) / s) * s,
      List.mem_map.mpr ⟨(W - w + (W - w) % s) / s,
        List.mem_range.mpr (by omega), rfl⟩, ?_, ?_⟩
    · by_cases hc : W < ((W - w + (W - w) % s) / s) * s + w
      · rw [if_pos hc]
        omega
      · rw [if_neg hc]
        omega
    · by_cases hc : W < ((W - w + (W - w) % s) / s) * s + w
      · rw [if_pos hc]
        omega
      · rw [if_neg hc]
        omega

/-- C6 (amended): with `w ≤ W`, `h ≤ H`, `0 < s ≤ min(w, h)` and, on each
axis, the offset `(dim − window) mod s` either zero or at least `s / 2`
(i.e. `s ≤ 2·offset`), every pixel of the image is covered by some emitted
window.  Without the offset condition coverage can fail, see the
counterexample. -/
theorem c6_sliding_window_coverage (W H s w h : Nat)
    (hw : w ≤ W) (hh : h ≤ H) (hs : 0 < s) (hsw : s ≤ w) (hsh : s ≤ h)
    (hrw : (W - w) % s = 0 ∨ s ≤ 2 * ((W - w) % s))
    (hrh : (H - h) % s = 0 ∨ s ≤ 2 * ((H - h) % s))
    (p q : Nat) (hp : p < W) (hq : q < H) :
    ∃ t ∈ slidingWindow W H s w h,
      t.1 ≤ (p : Int) ∧ (p : Int) < t.1 + w ∧
      t.2.1 ≤ (q : Int) ∧ (q : Int) < t.2.1 + h := by
  obtain ⟨xv, hxm, hx1, hx2⟩ := axis_cover W w s p hw hs hsw hrw hp
  obtain ⟨yv, hym, hy1, hy2⟩ := axis_cover H h s q hh hs hsh hrh hq
  refine ⟨((xv : Int), (yv : Int), w, h), ?_, ?_, ?_, ?_, ?_⟩
  · unfold slidingWindow
    exact List.mem_flatMap.mpr ⟨(xv : Int), hxm,
      List.mem_map.mpr ⟨(yv : Int), hym, rfl⟩⟩
  · show (xv : Int) ≤ (p : Int)
    exact_mod_cast hx1
  · show (p : Int) < (xv : Int) + (w : Nat)
    exact_mod_cast hx2
  · show (yv : Int) ≤ (q : Int)
    exact_mod_cast hy1
  · show (q : Int) < (yv : Int) + (h : Nat)
    exact_mod_cast hy2

/-- C6 counterexample: for a 7×7 image, window 3×3 and step 3 (which
satisfies `w ≤ W`, `h ≤ H` and `s ≤ min(w, h)`), no emitted window covers
pixel `(6, 6)`: the offset compensation `(W-w) % s = 1` is too small to pull
the last start position past `W - w`, so the trailing row and column are
missed. -/
theorem c6_uncovered_pixel_cex :
    (3 ≤ 7 ∧ 3 ≤ Nat.min 3 3 ∧ 0 < 3) ∧
    ∀ t ∈ slidingWindow 7 7 3 3 3,
      ¬ ((t.1 ≤ (6 : Int) ∧ (6 : Int) < t.1 + 3) ∧
         (t.2.1 ≤ (6 : Int) ∧ (6 : Int) < t.2.1 + 3)) := by
  refine ⟨by decide, by decide⟩

theorem c6_sliding_window_coverage_witness :
    (3 ≤ 8 ∧ 3 ≤ 8 ∧ 0 < 2 ∧ 2 ≤ 3 ∧ 2 ≤ 3 ∧
      ((8 - 3) % 2 = 0 ∨ 2 ≤ 2 * ((8 - 3) % 2)) ∧ 7 < 8) ∧
    ∃ t ∈ slidingWindow 8 8 2 3 3,
      t.1 ≤ (7 : Int) ∧ (7 : Int) < t.1 + 3 ∧
      t.2.1 ≤ (7 : Int) ∧ (7 : Int) < t.2.1 + 3 :=
  ⟨by omega,
    c6_sliding_window_coverage 8 8 2 3 3 (by omega) (by omega) (by omega)
      (by omega) (by omega) (by omega) (by omega) 7 7 (by omega) (by omega)⟩

theorem flatMap_range_getElem {α : Type} (H W : Nat) (f : Nat → Nat → α)
    (i j : Nat) (hi : i < H) (hj : j < W) :
    ((List.range H).flatMap fun a => (List.range W).map (f a))[i * W + j]? =
      some (f i j) := by
  induction H generalizing f i with
  | zero => omega
  | succ H ih =>
    rw [List.range_succ_eq_map, List.flatMap_cons, List.flatMap_map]
    rcases i with _ | i
    · rw [@List.getElem?_append _ ((List.range W).map (f 0)) _ _]
      rw [if_pos (by simpa using by omega : 0 * W + j < ((List.range W).map (f 0)).length)]
      rw [List.getElem?_map, List.getElem?_range (by omega : 0 * W + j < W)]
      simp
    · rw [List.getElem?_append_right
        (by simp only [List.length_map, List.length_range, Nat.succ_mul]; omega)]
      have hidx : (i + 1) * W + j - ((List.range W).map (f 0)).length =
          i * W + j := by
        simp only [List.length_map, List.length_range, Nat.succ_mul]
        omega
      rw [hidx]
      exact ih (fun a => f (a + 1)) i (by omega)

theorem rect3_spec (X : Grid3) (H W B : Nat) (hr : rect3 X H W B = true) :
    X.length = H ∧ ∀ row ∈ X, row.length = W ∧ ∀ vox ∈ row, vox.length = B := by
  unfold rect3 at hr
  simp only [Bool.and_eq_true, beq_iff_eq, List.all_eq_true] at hr
  exact ⟨hr.1, fun row hrow => ⟨(hr.2 row hrow).1,
    fun vox hvox => (hr.2 row hrow).2 vox hvox⟩⟩

theorem at3_eq (X : Grid3) (i j : Nat) :
    at3 X i j = ((X[i]?.getD [])[j]?).getD [] := by
  simp [at3, List.getD_eq_getElem?_getD]

theorem getElem?_replicate_append {α : Type} (m k : Nat) (z : α)
    (l : List α) : (List.replicate m z ++ l)[k + m]? = l[k]? := by
  rw [List.getElem?_append_right
    (by simp : (List.replicate m z).length ≤ k + m)]
  simp

theorem at3_pad (X : Grid3) (H W B m i j : Nat) (hr : rect3 X H W B = true)
    (hi : i < H) (hj : j < W) :
    at3 (pad_with_zeros X m) (i + m) (j + m) = at3 X i j := by
  obtain ⟨hlen, hrows⟩ := rect3_spec X H W B hr
  rw [at3_eq, at3_eq]
  simp only [pad_with_zeros]
  rw [List.append_assoc, getElem?_replicate_append]
  rw [@List.getElem?_append _ (X.map _) _ _,
    if_pos (by simp only [List.length_map, hlen]; omega)]
  rw [List.getElem?_map]
  have hXi : X[i]? = some (X.getD i []) := by
    rw [List.getD_eq_getElem?_getD]
    rw [List.getElem?_eq_getElem (by omega : i < X.length)]
    simp
  rw [hXi]
  simp only [Option.map_some', Option.getD_some]
  have hrowlen : (X.getD i []).length = W := by
    have hmem : X.getD i [] ∈ X := by
      rw [List.getD_eq_getElem _ _ (by omega : i < X.length)]
      exact List.getElem_mem _
    exact (hrows _ hmem).1
  rw [List.append_assoc, getElem?_replicate_append]
  rw [@List.getElem?_append _ (X.getD i []) _ _, if_pos (by omega)]

theorem extractPatch_center (P : Grid3) (i j m : Nat) :
    at3 (extractPatch P i j (2 * m + 1)) m m = at3 P (i + m) (j + m) := by
  rw [at3_eq, at3_eq]
  unfold extractPatch
  rw [List.getElem?_map, List.getElem?_take, if_pos (by omega),
    List.getElem?_drop]
  rcases hPi : P[i + m]? with _ | row
  · simp
  · simp only [Option.map_some', Option.getD_some]
    rw [List.getElem?_take, if_pos (by omega), List.getElem?_drop]

/-- C8: for odd `patch_size = 2m + 1` on a rectangular `H × W × B` image,
`create_patches` zero-pads by `margin = m` and emits, in row-major order,
one patch and one label per original pixel `(i, j)`: the label is
`y[i, j]`, the patch is the `patch_size`-window of the padded cube at
`(i, j)`, and its center voxel is `X[i, j, :]`; with
`remove_zero_labels = True` the zero-label pairs are dropped and every
remaining label is decremented by one. -/
theorem c8_create_patches (X : Grid3) (y : Grid) (H W B m : Nat)
    (hr : rect3 X H W B = true) (i j : Nat) (hi : i < H) (hj : j < W) :
    ((create_patches X y (2 * m + 1) false).2)[i * W + j]? =
        some (at2 y i j) ∧
    ((create_patches X y (2 * m + 1) false).1)[i * W + j]? =
        some (extractPatch (pad_with_zeros X m) i j (2 * m + 1)) ∧
    at3 (extractPatch (pad_with_zeros X m) i j (2 * m + 1)) m m = at3 X i j ∧
    create_patches X y (2 * m + 1) true =
      ((((create_patches X y (2 * m + 1) false).1).zip
          ((create_patches X y (2 * m + 1) false).2)
          |>.filter fun p => decide (0 < p.2)).map Prod.fst,
       (((create_patches X y (2 * m + 1) false).1).zip
          ((create_patches X y (2 * m + 1) false).2)
          |>.filter fun p => decide (0 < p.2)).map fun p => p.2 - 1) := by
  obtain ⟨hlen, hrows⟩ := rect3_spec X H W B hr
  have hm : (2 * m + 1 - 1) / 2 = m := by omega
  have hW : (X.getD 0 []).length = W := by
    have hmem : X.getD 0 [] ∈ X := by
      rw [List.getD_eq_getElem _ _ (by omega : 0 < X.length)]
      exact List.getElem_mem _
    exact (hrows _ hmem).1
  refine ⟨?_, ?_, ?_, ?_⟩
  · simp only [create_patches, hm, hlen, hW, Bool.false_eq_true, if_false]
    rw [List.getElem?_map, flatMap_range_getElem H W _ i j hi hj]
    rfl
  · simp only [create_patches, hm, hlen, hW, Bool.false_eq_true, if_false]
    rw [List.getElem?_map, flatMap_range_getElem H W _ i j hi hj]
    rfl
  · rw [extractPatch_center, at3_pad X H W B m i j hr hi hj]
  · simp only [create_patches, hm, hlen, hW, Bool.false_eq_true, if_false,
      if_true, List.zip_map']
    have hzip : (((List.range H).flatMap fun a => (List.range W).map
          fun b => (extractPatch (pad_with_zeros X m) a b (2 * m + 1),
            at2 y a b)).map fun p => (p.1, p.2)) =
        ((List.range H).flatMap fun a => (List.range W).map
          fun b => (extractPatch (pad_with_zeros X m) a b (2 * m + 1),
            at2 y a b)) := by
      apply list_map_self
      intro p _
      rfl
    rw [hzip, List.map_map, List.map_map]
    rfl

theorem c8_create_patches_witness :
    rect3 [[[7], [8]], [[9], [10]]] 2 2 1 = true ∧
    (((create_patches [[[7], [8]], [[9], [10]]] [[0, 1], [2, 3]]
        (2 * 1 + 1) false).2)[0 * 2 + 1]? =
          some (at2 [[0, 1], [2, 3]] 0 1) ∧
     ((create_patches [[[7], [8]], [[9], [10]]] [[0, 1], [2, 3]]
        (2 * 1 + 1) false).1)[0 * 2 + 1]? =
          some (extractPatch
            (pad_with_zeros [[[7], [8]], [[9], [10]]] 1) 0 1 (2 * 1 + 1)) ∧
     at3 (extractPatch (pad_with_zeros [[[7], [8]], [[9], [10]]] 1) 0 1
        (2 * 1 + 1)) 1 1 = at3 [[[7], [8]], [[9], [10]]] 0 1 ∧
     create_patches [[[7], [8]], [[9], [10]]] [[0, 1], [2, 3]]
        (2 * 1 + 1) true =
      ((((create_patches [[[7], [8]], [[9], [10]]] [[0, 1], [2, 3]]
            (2 * 1 + 1) false).1).zip
          ((create_patches [[[7], [8]], [[9], [10]]] [[0, 1], [2, 3]]
            (2 * 1 + 1) false).2)
          |>.filter fun p => decide (0 < p.2)).map Prod.fst,
       (((create_patches [[[7], [8]], [[9], [10]]] [[0, 1], [2, 3]]
            (2 * 1 + 1) false).1).zip
          ((create_patches [[[7], [8]], [[9], [10]]] [[0, 1], [2, 3]]
            (2 * 1 + 1) false).2)
          |>.filter fun p => decide (0 < p.2)).map fun p => p.2 - 1)) :=
  ⟨by decide,
    c8_create_patches [[[7], [8]], [[9], [10]]] [[0, 1], [2, 3]] 2 2 1 1
      (by decide) 0 1 (by decide) (by decide)⟩
